import Mathlib

/-!
Formal model of the multi-agent stock bot (query router in `app.py`,
Redis answer cache, SQLite-backed credential store in `auth.py`, and the
SQLite chat log), together with theorems about its routing, caching,
authentication and chat-history behavior.

Strings are modelled as `List Char` (`Str`); the Python string operations
used by the code (`lower`, `strip`, `split`, `split(sep)`, `in`,
`isalpha`, `isupper`, `join`) are reproduced for ASCII text below.
-/

abbrev Str := List Char

/-- Convert a Lean string literal to the `List Char` representation. -/
def strL (s : String) : Str := s.toList

/-- ASCII case folding of one character, as Python `str.lower` does per char. -/
def pyToLowerChar (c : Char) : Char :=
  if 65 ≤ c.toNat ∧ c.toNat ≤ 90 then Char.ofNat (c.toNat + 32) else c

/-- Python `s.lower()` (ASCII fragment). -/
def pyLower (s : Str) : Str := s.map pyToLowerChar

/-- The characters Python `str.strip()` removes (ASCII whitespace). -/
def isWsChar (c : Char) : Bool :=
  c = ' ' || c = '\t' || c = '\n' || c = '\x0d' || c = '\x0b' || c = '\x0c'

/-- Remove leading whitespace, as Python `str.lstrip()`. -/
def pyLStrip : Str → Str
  | [] => []
  | c :: r => if isWsChar c then pyLStrip r else c :: r

/-- Python `s.strip()`: drop whitespace from both ends. -/
def pyStrip (s : Str) : Str :=
  (pyLStrip ((pyLStrip s).reverse)).reverse

/-- Worker for `pySplitWs`, carrying the current (reversed) word. -/
def pySplitWsAux : Str → Str → List Str
  | [], acc => if acc.isEmpty then [] else [acc.reverse]
  | c :: r, acc =>
    if isWsChar c then
      if acc.isEmpty then pySplitWsAux r [] else acc.reverse :: pySplitWsAux r []
    else
      pySplitWsAux r (c :: acc)

/-- Python `s.split()` with no separator: split on whitespace runs, no empty tokens. -/
def pySplitWs (s : Str) : List Str := pySplitWsAux s []

/-- Python `str.isalpha` for ASCII: nonempty and all letters. -/
def pyIsAlpha (s : Str) : Bool :=
  !s.isEmpty && s.all (fun c => (65 ≤ c.toNat && c.toNat ≤ 90) || (97 ≤ c.toNat && c.toNat ≤ 122))

/-- Python `str.isupper` for ASCII: at least one cased character and no lowercase one. -/
def pyIsUpper (s : Str) : Bool :=
  (s.any (fun c => (65 ≤ c.toNat && c.toNat ≤ 90) || (97 ≤ c.toNat && c.toNat ≤ 122))) &&
  !(s.any (fun c => 97 ≤ c.toNat && c.toNat ≤ 122))

/-- Python `needle in hay` substring test, by scanning every start position. -/
def containsSub (needle : Str) : Str → Bool
  | [] => needle.isPrefixOf []
  | c :: rest => needle.isPrefixOf (c :: rest) || containsSub needle rest

/-- Index of the first occurrence of `sep` in `s`, if any. -/
def firstOcc (sep : Str) : Str → Option Nat
  | [] => if sep.isPrefixOf [] then some 0 else none
  | c :: rest =>
    if sep.isPrefixOf (c :: rest) then some 0
    else (firstOcc sep rest).map (· + 1)

/-- Worker for `splitOnSep`, fuelled: each round chops the text at the first
occurrence of the separator.  The fuel `s.length + 1` supplied below is
always sufficient, since every round consumes at least one character. -/
def splitGo (sep : Str) : Nat → Str → List Str
  | 0, s => [s]
  | fuel + 1, s =>
    match firstOcc sep s with
    | none => [s]
    | some i => s.take i :: splitGo sep fuel (s.drop (i + sep.length))

/-- Python `s.split(sep)` for a nonempty separator. -/
def splitOnSep (sep : Str) (s : Str) : List Str :=
  if sep = [] then [s] else splitGo sep (s.length + 1) s

/-- Python `sep.join(parts)`. -/
def joinSep (sep : Str) : List Str → Str
  | [] => []
  | [x] => x
  | x :: y :: rest => x ++ sep ++ joinSep sep (y :: rest)

/-!
Router embedding (`route_query` in `app.py`).

The five agents (`stock_agent`, `news_agent_inst`, `financials_agent`,
`market_agent`, `rag_agent.answer_query`) are external collaborators: each
is a function from a string to a string that may raise.  They are modelled
as `Str -> Except Unit Str`, where `Except.error ()` is a raised exception.
-/

structure Handlers where
  stock_agent : Str → Except Unit Str
  news_agent_inst : Str → Except Unit Str
  financials_agent : Str → Except Unit Str
  market_agent : Str → Except Unit Str
  rag_agent : Str → Except Unit Str

/-- Handlers that always succeed, built from plain functions. -/
def pureHandlers (p n f m r : Str → Str) : Handlers :=
  ⟨fun s => .ok (p s), fun s => .ok (n s), fun s => .ok (f s),
   fun s => .ok (m s), fun s => .ok (r s)⟩

/-- Trigger substrings for `wants_price`: `["price", "quote", "trading at"]`. -/
def priceTriggers : List Str := [strL "price", strL "quote", strL "trading at"]

/-- Trigger substrings for `wants_news`: `"news" in q or "headline" in q`. -/
def newsTriggers : List Str := [strL "news", strL "headline"]

/-- Trigger substrings for `wants_financial`: `["earnings", "financial", "revenue"]`. -/
def financialTriggers : List Str := [strL "earnings", strL "financial", strL "revenue"]

/-- Trigger substrings for `wants_market`: `["market", "index", "indices", "dow", "nasdaq", "s&p"]`. -/
def marketTriggers : List Str :=
  [strL "market", strL "index", strL "indices", strL "dow", strL "nasdaq", strL "s&p"]

def wantsPrice (q : Str) : Bool := priceTriggers.any (fun w => containsSub w q)

def wantsNews (q : Str) : Bool := newsTriggers.any (fun w => containsSub w q)

def wantsFinancial (q : Str) : Bool := financialTriggers.any (fun w => containsSub w q)

def wantsMarket (q : Str) : Bool := marketTriggers.any (fun w => containsSub w q)

/-- `true` when the lowercased query contains none of the classifier trigger
substrings of any of the four intent flags. -/
def noTriggers (q : Str) : Bool :=
  (priceTriggers ++ newsTriggers ++ financialTriggers ++ marketTriggers).all
    (fun w => !containsSub w q)

/-- Crude ticker detector: first whitespace token of the original-case query
that is purely alphabetic and fully uppercase
(`next((t for t in query.split() if t.isalpha() and t.isupper()), None)`). -/
def tickerOf (query : Str) : Option Str :=
  (pySplitWs query).find? (fun t => pyIsAlpha t && pyIsUpper t)

/-- The four intent flags of `route_query` after the default-intent rule
(`if ticker and not (wants_price or ...): wants_price = True`),
in order (price, news, financial, market). -/
def routedFlags (query : Str) : Bool × Bool × Bool × Bool :=
  let q := pyLower query
  let wp := wantsPrice q
  let wn := wantsNews q
  let wf := wantsFinancial q
  let wm := wantsMarket q
  (if (tickerOf query).isSome && !(wp || wn || wf || wm) then true else wp, wn, wf, wm)

/-- One conditional `responses.append(handler_result)` step inside the
`try` block: a previously raised exception propagates, and the handler is
only consulted when its flag is set. -/
def appendIf (acc : Except Unit (List Str)) (cond : Bool) (act : Except Unit Str) :
    Except Unit (List Str) :=
  match acc with
  | .error e => .error e
  | .ok rs => if cond then (match act with
      | .error e => .error e
      | .ok r => .ok (rs ++ [r]))
    else .ok rs

/-- The body of the `try` block of `route_query`: run the flagged handlers in
the fixed order price, news, financial, market (market suppressed by news),
falling back to the RAG knowledge base when no response was produced.
The price, news and financial agents receive `ticker or query`; the market
agent and the fallback receive the raw query. -/
def gatherResponses (H : Handlers) (wp wn wf wm : Bool) (tk : Option Str) (query : Str) :
    Except Unit (List Str) :=
  let s1 := appendIf (Except.ok []) wp (H.stock_agent (tk.getD query))
  let s2 := appendIf s1 wn (H.news_agent_inst (tk.getD query))
  let s3 := appendIf s2 wf (H.financials_agent (tk.getD query))
  let s4 := appendIf s3 (wm && !wn) (H.market_agent query)
  match s4 with
  | .error e => .error e
  | .ok rs => if rs.isEmpty then appendIf (Except.ok rs) true (H.rag_agent query) else .ok rs

/-- The generic failure string of the `except` branch of `route_query`. -/
def genericFailure : Str := strL "Sorry, I hit a problem while processing that."

/-- One `if flag: out.append(label + responses[idx]); idx += 1` step of the
label-merging loop at the end of `route_query`. -/
def labelStep (cond : Bool) (label : Str) (responses : List Str) (oi : List Str × Nat) :
    List Str × Nat :=
  if cond then (oi.1 ++ [label ++ responses.getD oi.2 []], oi.2 + 1) else oi

/-- Blank-line separator `"\n\n"`. -/
def nl2 : Str := strL "\x0a\x0a"

/-- Response composition of `route_query`: a single response is returned as
is; multiple responses are labelled in the fixed priority order and joined
with blank lines. -/
def composeResponses (wp wn wf wm : Bool) (responses : List Str) : Str :=
  if responses.length = 1 then responses.getD 0 []
  else
    let oi := labelStep wp (strL "**Price:** ") responses ([], 0)
    let oi := labelStep wn (strL "**News:** ") responses oi
    let oi := labelStep wf (strL "**Financials:** ") responses oi
    let oi := labelStep (wm && !wn) (strL "**Market:** ") responses oi
    joinSep nl2 oi.1

/-- Everything `route_query` does after the compound-query split check:
gather responses inside `try`, return the generic failure on an exception,
otherwise compose the responses. -/
def dispatch (H : Handlers) (wp wn wf wm : Bool) (tk : Option Str) (query : Str) : Str :=
  match gatherResponses H wp wn wf wm tk query with
  | .error _ => genericFailure
  | .ok responses => composeResponses wp wn wf wm responses

/-- The compound separator token `" and "`. -/
def sepAnd : Str := strL " and "

/-- The segments of a compound query: `[p.strip() for p in q.split(" and ") if p.strip()]`
applied to the lowercased query. -/
def partsOf (query : Str) : List Str :=
  ((splitOnSep sepAnd (pyLower query)).map pyStrip).filter (fun p => !p.isEmpty)

/-- `route_query`, fuelled.  The recursion of the source (one recursive call
per compound segment) is realised with a fuel parameter; `route_query` below
supplies fuel `query.length + 1`, which is shown sufficient because compound
segments never contain the separator again. -/
def routeAux (H : Handlers) : Nat → Str → Str
  | 0, _ => []
  | fuel + 1, query =>
    if containsSub sepAnd (pyLower query) then
      joinSep nl2 ((partsOf query).map (routeAux H fuel))
    else
      dispatch H (routedFlags query).1 (routedFlags query).2.1 (routedFlags query).2.2.1
        (routedFlags query).2.2.2 (tickerOf query) query

/-- `route_query(query)` from `app.py`, parameterised by the agent handlers. -/
def route_query (H : Handlers) (query : Str) : Str :=
  routeAux H (query.length + 1) query

/-!
Answer cache (`_cache_key`, `get_cached_answer`, `set_cached_answer` in
`app.py`).  The Redis client is an external collaborator: `none` models
`redis_client = None` (`_init_redis` failed), and a state with
`raises = true` models a backing store whose operations raise (both
`except` blocks).  Expiry (`ex=ttl`) is not modelled; all reads happen
before expiry.
-/

structure RedisState where
  raises : Bool
  store : Str → Option Str

def _DEFAULT_TTL : Nat := 60 * 60 * 24

/-- Cache key `f"qa:{user}:{query.strip().lower()}"`. -/
def _cache_key (user : Str) (query : Str) : Str :=
  strL "qa:" ++ user ++ [':'] ++ pyLower (pyStrip query)

/-- `get_cached_answer`: `None` when the client is missing or the read raises. -/
def get_cached_answer (rc : Option RedisState) (user query : Str) : Option Str :=
  match rc with
  | none => none
  | some st => if st.raises then none else st.store (_cache_key user query)

/-- `set_cached_answer`: a no-op when the client is missing or the write raises.
Returns the client state after the call. -/
def set_cached_answer (rc : Option RedisState) (user query answer : Str)
    (_ttl : Nat := _DEFAULT_TTL) : Option RedisState :=
  match rc with
  | none => none
  | some st =>
    if st.raises then some st
    else some { st with
      store := fun k => if k = _cache_key user query then some answer else st.store k }

/-!
Credential store (`auth.py`).  The `users` table is modelled as a map from
username to `(email, full_name, password_hash)`; `hash_password`
(`hashlib.sha256(...).hexdigest()`, an external library primitive) is an
abstract function parameter `hashF`.
-/

/-- `register_user`: `INSERT` succeeds only when the username (the primary
key) is new; `sqlite3.IntegrityError` on a duplicate is caught and reported
as `False`, leaving the table unchanged. -/
def register_user (hashF : Str → Str) (db : Str → Option (Str × Str × Str))
    (username email full_name password : Str) :
    (Str → Option (Str × Str × Str)) × Bool :=
  match db username with
  | some _ => (db, false)
  | none =>
    (fun u => if u = username then some (email, full_name, hashF password) else db u, true)

/-- `verify_login`: compare the stored hash with the hash of the supplied
password; `False` for an unknown username. -/
def verify_login (hashF : Str → Str) (db : Str → Option (Str × Str × Str))
    (username password : Str) : Bool :=
  match db username with
  | some row => row.2.2 == hashF password
  | none => false

/-!
Chat log (`init_chat_db`, `fetch_chat`, `save_chat` in `app.py`).  The
`chats` table is a list of rows; `id` is the `AUTOINCREMENT` primary key,
so insertion order is ascending id order.  `fetch_chat` runs
`SELECT role, text FROM chats WHERE username = ? ORDER BY id ASC LIMIT ?`.
-/

structure ChatRow where
  id : Nat
  username : Str
  role : Str
  text : Str
deriving DecidableEq

/-- Insert one row into a list kept sorted by ascending `id`. -/
def insertById (r : ChatRow) : List ChatRow → List ChatRow
  | [] => [r]
  | x :: xs => if r.id ≤ x.id then r :: x :: xs else x :: insertById r xs

/-- `ORDER BY id ASC` over the stored rows. -/
def sortById (l : List ChatRow) : List ChatRow := l.foldr insertById []

/-- The rows `fetch_chat` reads: the user's rows in ascending id order,
truncated by `LIMIT`. -/
def fetchRows (db : List ChatRow) (username : Str) (limit : Nat) : List ChatRow :=
  (((sortById db).filter (fun r => r.username == username)).take limit)

/-- `fetch_chat(username, limit=200)`: the selected rows projected to
`{"role": r, "text": t}` dictionaries. -/
def fetch_chat (db : List ChatRow) (username : Str) (limit : Nat := 200) :
    List (Str × Str) :=
  (fetchRows db username limit).map (fun r => (r.role, r.text))

/-- The next `AUTOINCREMENT` id: strictly larger than every id used so far. -/
def nextId (db : List ChatRow) : Nat := (db.map (fun r => r.id)).foldr Nat.max 0 + 1

/-- `save_chat`: append one row with a fresh id. -/
def save_chat (db : List ChatRow) (username role text : Str) : List ChatRow :=
  db ++ [⟨nextId db, username, role, text⟩]

/-!
Specification-side composition (for the refinement claims about the
router's response merging).  `labeledPairs` lists, in the fixed priority
order price, news, financial, market (market suppressed by news), the
label prefix and handler output of every capability the flags invoke;
`composeSpec` is the composition the specification describes: fallback
answer when no capability fired, the raw response when exactly one did,
and labelled responses joined by blank lines otherwise.
-/

def labeledPairs (p n f m : Str → Str) (wp wn wf wm : Bool) (tk : Option Str)
    (query : Str) : List (Str × Str) :=
  (if wp then [(strL "**Price:** ", p (tk.getD query))] else []) ++
  (if wn then [(strL "**News:** ", n (tk.getD query))] else []) ++
  (if wf then [(strL "**Financials:** ", f (tk.getD query))] else []) ++
  (if wm && !wn then [(strL "**Market:** ", m query)] else [])

def composeSpec (pairs : List (Str × Str)) (fallback : Str) : Str :=
  match pairs with
  | [] => fallback
  | [x] => x.2
  | xs => joinSep nl2 (xs.map (fun lr => lr.1 ++ lr.2))

/-!
Concrete handler instantiations used for witnesses and counterexamples:
each tags its argument so that distinct invocations are distinguishable.
-/

def tagP : Str → Str := fun s => 'P' :: s

def tagN : Str → Str := fun s => 'N' :: s

def tagF : Str → Str := fun s => 'F' :: s

def tagM : Str → Str := fun s => 'M' :: s

def tagR : Str → Str := fun s => 'R' :: s

def tagHandlers : Handlers := pureHandlers tagP tagN tagF tagM tagR

/-- The tag handlers with a stock-price agent that raises. -/
def failPriceHandlers : Handlers :=
  { tagHandlers with stock_agent := fun _ => .error () }

/-- A handler that behaves like `g` at `point` and answers a junk string
elsewhere (used to witness that routing consults handlers only at the
claimed arguments). -/
def onlyAt (point : Str) (g : Str → Str) : Str → Str :=
  fun s => if s = point then g s else strL "?"

/-!
Lemmas about the string primitives.
-/

theorem isPrefixOf_exists {l₁ l₂ : Str} :
    l₁.isPrefixOf l₂ = true ↔ ∃ t, l₂ = l₁ ++ t := by
  induction l₁ generalizing l₂ with
  | nil => simp [List.isPrefixOf]
  | cons a l ih =>
    cases l₂ with
    | nil => simp [List.isPrefixOf]
    | cons b m =>
      simp only [List.isPrefixOf, Bool.and_eq_true, beq_iff_eq, ih, List.cons_append,
        List.cons.injEq]
      constructor
      · rintro ⟨rfl, t, rfl⟩; exact ⟨t, rfl, rfl⟩
      · rintro ⟨t, rfl, rfl⟩; exact ⟨rfl, t, rfl⟩

theorem firstOcc_le {sep s : Str} {i : Nat} (h : firstOcc sep s = some i) :
    i + sep.length ≤ s.length := by
  induction s generalizing i with
  | nil =>
    simp only [firstOcc] at h
    split at h
    · rename_i hp
      obtain ⟨t, ht⟩ := isPrefixOf_exists.mp hp
      cases h
      have hnil := List.append_eq_nil.mp ht.symm
      simp [hnil.1]
    · exact absurd h (by simp)
  | cons c rest ih =>
    simp only [firstOcc] at h
    split at h
    · rename_i hp
      cases h
      obtain ⟨t, ht⟩ := isPrefixOf_exists.mp hp
      have := congrArg List.length ht
      simp at this
      simp
      omega
    · cases hfo : firstOcc sep rest with
      | none => simp [hfo] at h
      | some j =>
        simp [hfo] at h
        have := ih hfo
        simp
        omega

theorem firstOcc_min {sep s : Str} {i : Nat} (h : firstOcc sep s = some i) :
    ∀ j, j < i → sep.isPrefixOf (s.drop j) = false := by
  induction s generalizing i with
  | nil =>
    intro j hj
    simp only [firstOcc] at h
    split at h
    · cases h; omega
    · exact absurd h (by simp)
  | cons c rest ih =>
    intro j hj
    simp only [firstOcc] at h
    split at h
    · cases h; omega
    · rename_i hnp
      cases hfo : firstOcc sep rest with
      | none => simp [hfo] at h
      | some k =>
        simp [hfo] at h
        subst h
        cases j with
        | zero =>
          rw [List.drop_zero]
          cases hb : sep.isPrefixOf (c :: rest)
          · rfl
          · exact absurd hb hnp
        | succ j' => simpa using ih hfo j' (by omega)

theorem firstOcc_none {sep s : Str} (hsep : sep ≠ []) (h : firstOcc sep s = none) :
    ∀ j, sep.isPrefixOf (s.drop j) = false := by
  induction s with
  | nil =>
    intro j
    simp only [firstOcc] at h
    cases sep with
    | nil => simp at hsep
    | cons a l => simp [List.isPrefixOf]
  | cons c rest ih =>
    intro j
    simp only [firstOcc] at h
    split at h
    · exact absurd h (by simp)
    · rename_i hnp
      cases j with
      | zero =>
        rw [List.drop_zero]
        cases hb : sep.isPrefixOf (c :: rest)
        · rfl
        · exact absurd hb hnp
      | succ j' =>
        have hnone : firstOcc sep rest = none := by
          cases hfo : firstOcc sep rest with
          | none => rfl
          | some k => simp [hfo] at h
        simpa using ih hnone j'

theorem containsSub_exists {needle hay : Str} :
    containsSub needle hay = true ↔ ∃ u v, hay = u ++ needle ++ v := by
  induction hay with
  | nil =>
    simp only [containsSub, isPrefixOf_exists]
    constructor
    · rintro ⟨t, ht⟩
      exact ⟨[], t, by simpa using ht⟩
    · rintro ⟨u, v, huv⟩
      have h1 := List.append_eq_nil.mp huv.symm
      have h2 := List.append_eq_nil.mp h1.1
      exact ⟨[], by simp [h2.2]⟩
  | cons c rest ih =>
    simp only [containsSub, Bool.or_eq_true, isPrefixOf_exists, ih]
    constructor
    · rintro (⟨t, ht⟩ | ⟨u, v, huv⟩)
      · exact ⟨[], t, by simpa using ht⟩
      · exact ⟨c :: u, v, by simp [huv]⟩
    · rintro ⟨u, v, huv⟩
      cases u with
      | nil => exact Or.inl ⟨v, by simpa using huv⟩
      | cons c₀ u' =>
        simp only [List.cons_append, List.cons.injEq] at huv
        exact Or.inr ⟨u', v, huv.2⟩

theorem occ_isPrefixOf_drop {sep s u v : Str} (h : s = u ++ sep ++ v) :
    sep.isPrefixOf (s.drop u.length) = true := by
  subst h
  rw [List.append_assoc, List.drop_left]
  exact isPrefixOf_exists.mpr ⟨v, rfl⟩

theorem splitGo_fuel {sep : Str} (hsep : sep ≠ []) :
    ∀ (f1 : Nat), ∀ (f2 : Nat) (s : Str), s.length < f1 → s.length < f2 →
      splitGo sep f1 s = splitGo sep f2 s := by
  intro f1
  induction f1 with
  | zero => intro f2 s h1 _; omega
  | succ g1 ih =>
    intro f2 s h1 h2
    cases f2 with
    | zero => omega
    | succ g2 =>
      rw [splitGo, splitGo]
      cases hfo : firstOcc sep s with
      | none => rfl
      | some i =>
        have hle := firstOcc_le hfo
        have hsl : sep.length ≥ 1 := by
          cases sep with
          | nil => simp at hsep
          | cons a l => simp
        have hdrop : (s.drop (i + sep.length)).length < g1 ∧
            (s.drop (i + sep.length)).length < g2 := by
          simp only [List.length_drop]
          omega
        change List.take i s :: splitGo sep g1 (s.drop (i + sep.length)) =
          List.take i s :: splitGo sep g2 (s.drop (i + sep.length))
        rw [ih g2 (s.drop (i + sep.length)) hdrop.1 hdrop.2]

theorem splitOnSep_eq_none {sep s : Str} (hsep : sep ≠ [])
    (h : firstOcc sep s = none) : splitOnSep sep s = [s] := by
  rw [splitOnSep, if_neg hsep, splitGo, h]

theorem splitOnSep_eq_some {sep s : Str} {i : Nat} (hsep : sep ≠ [])
    (h : firstOcc sep s = some i) :
    splitOnSep sep s = s.take i :: splitOnSep sep (s.drop (i + sep.length)) := by
  rw [splitOnSep, if_neg hsep, splitGo, h, splitOnSep, if_neg hsep]
  have hle := firstOcc_le h
  have hsl : sep.length ≥ 1 := by
    cases sep with
    | nil => simp at hsep
    | cons a l => simp
  change List.take i s :: splitGo sep s.length (s.drop (i + sep.length)) = _
  rw [splitGo_fuel hsep s.length ((s.drop (i + sep.length)).length + 1)
    (s.drop (i + sep.length)) (by simp only [List.length_drop]; omega) (by omega)]

theorem take_no_occ {sep s : Str} {i : Nat} (hsep : sep ≠ [])
    (h : firstOcc sep s = some i) : containsSub sep (s.take i) = false := by
  by_contra hc
  have hc' : containsSub sep (s.take i) = true := by
    cases hb : containsSub sep (s.take i)
    · exact absurd hb hc
    · rfl
  obtain ⟨u, v, huv⟩ := containsSub_exists.mp hc'
  have hs : s = u ++ sep ++ (v ++ s.drop i) := by
    conv_lhs => rw [← List.take_append_drop i s]
    rw [huv]
    simp [List.append_assoc]
  have hpre := occ_isPrefixOf_drop hs
  have hlen : u.length < i := by
    have h1 := congrArg List.length huv
    have h2 := firstOcc_le h
    have h3 : sep.length ≥ 1 := by
      cases sep with
      | nil => simp at hsep
      | cons a l => simp
    simp [List.length_take] at h1
    omega
  rw [firstOcc_min h u.length hlen] at hpre
  cases hpre

theorem splitOnSep_no_occ {sep : Str} (hsep : sep ≠ []) :
    ∀ (bound : Nat) (s : Str), s.length ≤ bound →
      ∀ p ∈ splitOnSep sep s, containsSub sep p = false := by
  intro bound
  induction bound with
  | zero =>
    intro s hs p hp
    have hnil : s = [] := by
      cases s with
      | nil => rfl
      | cons a l => simp at hs
    subst hnil
    have hfo : firstOcc sep [] = none := by
      cases sep with
      | nil => exact absurd rfl hsep
      | cons a l => simp [firstOcc, List.isPrefixOf]
    rw [splitOnSep_eq_none hsep hfo] at hp
    simp at hp
    subst hp
    cases sep with
    | nil => exact absurd rfl hsep
    | cons a l => simp [containsSub, List.isPrefixOf]
  | succ b ih =>
    intro s hs p hp
    cases hfo : firstOcc sep s with
    | none =>
      rw [splitOnSep_eq_none hsep hfo] at hp
      simp at hp
      subst hp
      by_contra hc
      have hc' : containsSub sep p = true := by
        cases hb : containsSub sep p
        · exact absurd hb hc
        · rfl
      obtain ⟨u, v, huv⟩ := containsSub_exists.mp hc'
      have hpre := occ_isPrefixOf_drop huv
      rw [firstOcc_none hsep hfo u.length] at hpre
      cases hpre
    | some i =>
      rw [splitOnSep_eq_some hsep hfo] at hp
      rcases List.mem_cons.mp hp with rfl | hp'
      · exact take_no_occ hsep hfo
      · apply ih (s.drop (i + sep.length)) _ p hp'
        have h1 := firstOcc_le hfo
        have h2 : sep.length ≥ 1 := by
          cases sep with
          | nil => simp at hsep
          | cons a l => simp
        simp only [List.length_drop]
        omega

theorem splitOnSep_subset {sep : Str} (hsep : sep ≠ []) :
    ∀ (bound : Nat) (s : Str), s.length ≤ bound →
      ∀ p ∈ splitOnSep sep s, ∀ c ∈ p, c ∈ s := by
  intro bound
  induction bound with
  | zero =>
    intro s hs p hp c hc
    have hnil : s = [] := by
      cases s with
      | nil => rfl
      | cons a l => simp at hs
    subst hnil
    have hfo : firstOcc sep [] = none := by
      cases sep with
      | nil => exact absurd rfl hsep
      | cons a l => simp [firstOcc, List.isPrefixOf]
    rw [splitOnSep_eq_none hsep hfo] at hp
    simp at hp
    subst hp
    exact hc
  | succ b ih =>
    intro s hs p hp c hc
    cases hfo : firstOcc sep s with
    | none =>
      rw [splitOnSep_eq_none hsep hfo] at hp
      simp at hp
      subst hp
      exact hc
    | some i =>
      rw [splitOnSep_eq_some hsep hfo] at hp
      rcases List.mem_cons.mp hp with rfl | hp'
      · exact List.take_subset i s hc
      · refine List.drop_subset (i + sep.length) s ?_
        refine ih (s.drop (i + sep.length)) ?_ p hp' c hc
        have h1 := firstOcc_le hfo
        have h2 : sep.length ≥ 1 := by
          cases sep with
          | nil => simp at hsep
          | cons a l => simp
        simp only [List.length_drop]
        omega

theorem pyLStrip_exists (s : Str) : ∃ u, s = u ++ pyLStrip s := by
  induction s with
  | nil => exact ⟨[], rfl⟩
  | cons c r ih =>
    by_cases hw : isWsChar c
    · obtain ⟨u, hu⟩ := ih
      refine ⟨c :: u, ?_⟩
      rw [pyLStrip, if_pos hw, List.cons_append, ← hu]
    · refine ⟨[], ?_⟩
      rw [pyLStrip, if_neg hw, List.nil_append]

theorem pyStrip_decomp (s : Str) : ∃ u v, s = u ++ pyStrip s ++ v := by
  obtain ⟨u, hu⟩ := pyLStrip_exists s
  obtain ⟨w, hw⟩ := pyLStrip_exists (pyLStrip s).reverse
  refine ⟨u, w.reverse, ?_⟩
  have h2 : pyLStrip s = pyStrip s ++ w.reverse := by
    have := congrArg List.reverse hw
    simpa [pyStrip] using this
  conv_lhs => rw [hu, h2]
  rw [List.append_assoc]

theorem containsSub_pyStrip {sep p : Str}
    (h : containsSub sep (pyStrip p) = true) : containsSub sep p = true := by
  obtain ⟨u0, v0, h0⟩ := pyStrip_decomp p
  obtain ⟨u, v, huv⟩ := containsSub_exists.mp h
  refine containsSub_exists.mpr ⟨u0 ++ u, v ++ v0, ?_⟩
  rw [h0, huv]
  simp [List.append_assoc]

theorem pyStrip_subset {p : Str} : ∀ c ∈ pyStrip p, c ∈ p := by
  intro c hc
  obtain ⟨u0, v0, h0⟩ := pyStrip_decomp p
  rw [h0]
  simp [hc]

theorem charOfNat_toNat {nv : Nat} (hn : nv < 55296) : (Char.ofNat nv).toNat = nv := by
  simp [Char.ofNat, Char.toNat, Nat.isValidChar, Char.ofNatAux, hn, UInt32.toNat,
    BitVec.toNat_ofNatLt]

theorem pyToLowerChar_fixed (c : Char) :
    pyToLowerChar (pyToLowerChar c) = pyToLowerChar c := by
  by_cases h : 65 ≤ c.toNat ∧ c.toNat ≤ 90
  · have h1 : pyToLowerChar c = Char.ofNat (c.toNat + 32) := by
      rw [pyToLowerChar, if_pos h]
    have ht : (Char.ofNat (c.toNat + 32)).toNat = c.toNat + 32 :=
      charOfNat_toNat (by omega)
    rw [h1, pyToLowerChar, if_neg (by rw [ht]; omega)]
  · have h1 : pyToLowerChar c = c := by rw [pyToLowerChar, if_neg h]
    rw [h1, h1]

theorem pyLower_fixed_of_subset {p : Str} {q : Str}
    (hsub : ∀ c, c ∈ p → c ∈ pyLower q) : pyLower p = p := by
  induction p with
  | nil => rfl
  | cons a t ih =>
    have ha : a ∈ pyLower q := hsub a (by simp)
    obtain ⟨b, _, hb⟩ := List.mem_map.mp ha
    have hfix : pyToLowerChar a = a := by rw [← hb, pyToLowerChar_fixed]
    have ht : pyLower t = t := ih (fun c hc => hsub c (by simp [hc]))
    simp only [pyLower, List.map_cons] at ht ⊢
    rw [hfix, ht]

/-!
Unfolding lemmas for `route_query`.
-/

theorem sepAnd_ne_nil : sepAnd ≠ [] := by decide

/-- Every segment of a compound query is lowercase-fixed and free of the
separator, so routing it never recurses again. -/
theorem partsOf_no_sep {query : Str} :
    ∀ p ∈ partsOf query, containsSub sepAnd (pyLower p) = false := by
  intro p hp
  obtain ⟨hp1, _⟩ := List.mem_filter.mp hp
  obtain ⟨p0, hp0, hps⟩ := List.mem_map.mp hp1
  have hno : containsSub sepAnd p0 = false :=
    splitOnSep_no_occ sepAnd_ne_nil (pyLower query).length (pyLower query) (le_refl _) p0 hp0
  have hnos : containsSub sepAnd (pyStrip p0) = false := by
    cases hb : containsSub sepAnd (pyStrip p0)
    · rfl
    · rw [containsSub_pyStrip hb] at hno
      cases hno
  have hsubset : ∀ c, c ∈ pyStrip p0 → c ∈ pyLower query := by
    intro c hc
    exact splitOnSep_subset sepAnd_ne_nil (pyLower query).length (pyLower query) (le_refl _)
      p0 hp0 c (pyStrip_subset c hc)
  have hfix : pyLower (pyStrip p0) = pyStrip p0 := pyLower_fixed_of_subset hsubset
  rw [← hps, hfix]
  exact hnos

theorem routeAux_nonCompound (H : Handlers) (fuel : Nat) {query : Str}
    (h : containsSub sepAnd (pyLower query) = false) :
    routeAux H (fuel + 1) query =
      dispatch H (routedFlags query).1 (routedFlags query).2.1 (routedFlags query).2.2.1
        (routedFlags query).2.2.2 (tickerOf query) query := by
  rw [routeAux, if_neg (by rw [h]; simp)]

theorem routeAux_compound (H : Handlers) (fuel : Nat) {query : Str}
    (h : containsSub sepAnd (pyLower query) = true) :
    routeAux H (fuel + 1) query = joinSep nl2 ((partsOf query).map (routeAux H fuel)) := by
  rw [routeAux, if_pos (by rw [h])]

theorem route_query_nonCompound (H : Handlers) {query : Str}
    (h : containsSub sepAnd (pyLower query) = false) :
    route_query H query =
      dispatch H (routedFlags query).1 (routedFlags query).2.1 (routedFlags query).2.2.1
        (routedFlags query).2.2.2 (tickerOf query) query :=
  routeAux_nonCompound H query.length h

theorem dispatch_pure (p n f m r : Str → Str) (wp wn wf wm : Bool) (tk : Option Str)
    (query : Str) :
    dispatch (pureHandlers p n f m r) wp wn wf wm tk query =
      composeSpec (labeledPairs p n f m wp wn wf wm tk query) (r query) := by
  cases wp <;> cases wn <;> cases wf <;> cases wm <;>
    simp [dispatch, gatherResponses, appendIf, pureHandlers, composeResponses, labelStep,
      composeSpec, labeledPairs, joinSep]

theorem route_pure_nonCompound (p n f m r : Str → Str) {query : Str}
    (h : containsSub sepAnd (pyLower query) = false) :
    route_query (pureHandlers p n f m r) query =
      composeSpec (labeledPairs p n f m (routedFlags query).1 (routedFlags query).2.1
        (routedFlags query).2.2.1 (routedFlags query).2.2.2 (tickerOf query) query)
      (r query) := by
  rw [route_query_nonCompound _ h, dispatch_pure]

theorem noTriggers_flags {q : Str} (h : noTriggers q = true) :
    wantsPrice q = false ∧ wantsNews q = false ∧ wantsFinancial q = false ∧
      wantsMarket q = false := by
  simp only [noTriggers, priceTriggers, newsTriggers, financialTriggers, marketTriggers,
    List.cons_append, List.nil_append, List.all_cons, List.all_nil, Bool.and_eq_true,
    Bool.not_eq_true', and_true] at h
  obtain ⟨h1, h2, h3, h4, h5, h6, h7, h8, h9, h10, h11, h12, h13, h14⟩ := h
  refine ⟨?_, ?_, ?_, ?_⟩ <;>
    simp [wantsPrice, wantsNews, wantsFinancial, wantsMarket, priceTriggers, newsTriggers,
      financialTriggers, marketTriggers, h1, h2, h3, h4, h5, h6, h7, h8, h9, h10, h11,
      h12, h13, h14]

theorem routedFlags_noTriggers {query : Str} (h : noTriggers (pyLower query) = true) :
    routedFlags query = ((tickerOf query).isSome, false, false, false) := by
  obtain ⟨h1, h2, h3, h4⟩ := noTriggers_flags h
  simp only [routedFlags, h1, h2, h3, h4, Bool.or_self, Bool.or_false, Bool.not_false,
    Bool.and_true]
  cases (tickerOf query).isSome <;> simp

theorem find?_eq_of_filter_singleton {α : Type} {pred : α → Bool} {l : List α} {t : α}
    (h : l.filter pred = [t]) : l.find? pred = some t := by
  induction l with
  | nil => simp at h
  | cons a l' ih =>
    cases hpa : pred a with
    | true =>
      rw [List.filter_cons_of_pos hpa] at h
      injection h with h1 h2
      subst h1
      rw [List.find?_cons_of_pos _ hpa]
    | false =>
      rw [List.filter_cons_of_neg (by simp [hpa])] at h
      rw [List.find?_cons_of_neg _ (by simp [hpa])]
      exact ih h

/-!
Claim C1: compound-query splitting.
-/

/-- C1 counterexample: routing "AAPL price and latest news" does not return
the capability outputs of the original-case segments "AAPL price" and
"latest news" joined by a blank line.  The query is lowercased before it is
split, so the first segment routed is "aapl price", in which no ticker is
found; the price agent therefore receives the whole segment text instead of
"AAPL". -/
theorem c1_claim_counterexample :
    route_query tagHandlers (strL "AAPL price and latest news") ≠
      route_query tagHandlers (strL "AAPL price") ++ nl2 ++
        route_query tagHandlers (strL "latest news") := by decide

/-- C1 (amended): for every query whose lowercased text contains the token
" and ", `route_query` splits the lowercased text on that token into
non-empty trimmed segments, routes each (lowercase) segment independently
through the same routing logic, and joins the segment results with a
blank-line separator.  Since the segments are lowercase, segment-level
ticker extraction never finds an uppercase token. -/
theorem c1_route_query_compound_splits_lowercased (H : Handlers) {query : Str}
    (h : containsSub sepAnd (pyLower query) = true) :
    route_query H query = joinSep nl2 ((partsOf query).map (route_query H)) := by
  rw [route_query, routeAux_compound H query.length h]
  congr 1
  apply List.map_congr_left
  intro p hp
  have hnc := partsOf_no_sep p hp
  have hqpos : query.length ≠ 0 := by
    intro h0
    rw [List.eq_nil_of_length_eq_zero h0] at h
    exact absurd h (by decide)
  obtain ⟨k, hk⟩ := Nat.exists_eq_succ_of_ne_zero hqpos
  rw [hk, routeAux_nonCompound H k hnc, route_query_nonCompound H hnc]

/-- C1 witness: the amended splitting law applied to
"AAPL price and latest news" with the tag handlers. -/
theorem c1_witness :
    containsSub sepAnd (pyLower (strL "AAPL price and latest news")) = true ∧
    route_query tagHandlers (strL "AAPL price and latest news") =
      joinSep nl2 ((partsOf (strL "AAPL price and latest news")).map
        (route_query tagHandlers)) :=
  ⟨by decide, c1_route_query_compound_splits_lowercased tagHandlers (by decide)⟩

/-!
Claim C2: handler arguments.
-/

/-- C2 counterexample: in "AAPL market" the ticker "AAPL" is extracted and
only the market handler runs, yet its (unlabelled) response is the market
agent applied to the whole raw query, not to the ticker. -/
theorem c2_claim_counterexample :
    tickerOf (strL "AAPL market") = some (strL "AAPL") ∧
    route_query tagHandlers (strL "AAPL market") = tagM (strL "AAPL market") ∧
    route_query tagHandlers (strL "AAPL market") ≠ tagM (strL "AAPL") := by
  refine ⟨by decide, by decide, by decide⟩

/-- C2 (amended): on a non-compound query the price, news and financial
handlers receive the ticker when one was extracted (else the raw query),
while the market handler and the knowledge-base fallback always receive the
full raw query: the routing result depends on the handlers only through
their values at those arguments. -/
theorem c2_handler_arguments (p n f m r p2 n2 f2 m2 r2 : Str → Str) {query : Str}
    (hnc : containsSub sepAnd (pyLower query) = false)
    (hp : p ((tickerOf query).getD query) = p2 ((tickerOf query).getD query))
    (hn : n ((tickerOf query).getD query) = n2 ((tickerOf query).getD query))
    (hf : f ((tickerOf query).getD query) = f2 ((tickerOf query).getD query))
    (hm : m query = m2 query) (hr : r query = r2 query) :
    route_query (pureHandlers p n f m r) query =
      route_query (pureHandlers p2 n2 f2 m2 r2) query := by
  rw [route_pure_nonCompound p n f m r hnc, route_pure_nonCompound p2 n2 f2 m2 r2 hnc,
    labeledPairs, labeledPairs, hp, hn, hf, hm, hr]

/-- C2 witness: on "AAPL market", replacing every handler by one that
agrees with it only at the claimed argument (ticker "AAPL" for
price/news/financial, the raw query for market and the fallback) leaves the
routing output unchanged. -/
theorem c2_witness :
    containsSub sepAnd (pyLower (strL "AAPL market")) = false ∧
    route_query (pureHandlers tagP tagN tagF tagM tagR) (strL "AAPL market") =
      route_query (pureHandlers (onlyAt (strL "AAPL") tagP) (onlyAt (strL "AAPL") tagN)
        (onlyAt (strL "AAPL") tagF) (onlyAt (strL "AAPL market") tagM)
        (onlyAt (strL "AAPL market") tagR)) (strL "AAPL market") :=
  ⟨by decide,
    c2_handler_arguments tagP tagN tagF tagM tagR (onlyAt (strL "AAPL") tagP)
      (onlyAt (strL "AAPL") tagN) (onlyAt (strL "AAPL") tagF)
      (onlyAt (strL "AAPL market") tagM) (onlyAt (strL "AAPL market") tagR)
      (by decide) (by decide) (by decide) (by decide) (by decide) (by decide)⟩

/-!
Claim C3: bare uppercase token defaults to a price lookup.
-/

/-- C3 counterexample: "AAPL and cheese" contains exactly one bare uppercase
alphabetic token and no classifier trigger substring, yet routing it does
not invoke the price capability at all: the compound split fires first and
both lowercased segments fall back to the knowledge base. -/
theorem c3_claim_counterexample :
    ((pySplitWs (strL "AAPL and cheese")).filter
      (fun tok => pyIsAlpha tok && pyIsUpper tok) = [strL "AAPL"]) ∧
    noTriggers (pyLower (strL "AAPL and cheese")) = true ∧
    route_query tagHandlers (strL "AAPL and cheese") ≠ tagP (strL "AAPL") ∧
    route_query tagHandlers (strL "AAPL and cheese") =
      tagR (strL "aapl") ++ nl2 ++ tagR (strL "cheese") := by
  refine ⟨by decide, by decide, by decide, by decide⟩

/-- C3 (amended): for every NON-COMPOUND query containing exactly one bare
uppercase alphabetic token and none of the classifier trigger substrings,
`route_query` invokes only the price capability, with that token as its
argument. -/
theorem c3_bare_ticker_price_only (p n f m r : Str → Str) {query : Str} {t : Str}
    (hnc : containsSub sepAnd (pyLower query) = false)
    (hone : (pySplitWs query).filter (fun tok => pyIsAlpha tok && pyIsUpper tok) = [t])
    (hno : noTriggers (pyLower query) = true) :
    route_query (pureHandlers p n f m r) query = p t := by
  have htk : tickerOf query = some t := find?_eq_of_filter_singleton hone
  have hfl := routedFlags_noTriggers hno
  rw [route_pure_nonCompound p n f m r hnc, hfl, htk]
  simp [labeledPairs, composeSpec]

/-- C3 witness: the amended bare-ticker law applied to "MSFT". -/
theorem c3_witness :
    containsSub sepAnd (pyLower (strL "MSFT")) = false ∧
    ((pySplitWs (strL "MSFT")).filter
      (fun tok => pyIsAlpha tok && pyIsUpper tok) = [strL "MSFT"]) ∧
    noTriggers (pyLower (strL "MSFT")) = true ∧
    route_query tagHandlers (strL "MSFT") = tagP (strL "MSFT") :=
  ⟨by decide, by decide, by decide,
    c3_bare_ticker_price_only tagP tagN tagF tagM tagR (by decide) (by decide) (by decide)⟩

/-!
Claim C4: response composition and label order.
-/

/-- C4: on every non-compound query whose handlers all succeed, the routing
result is exactly the specified composition: with one response the raw
handler string (no label); with several responses each prefixed by its bold
capability label, in the fixed priority order price, news, financial,
market (market suppressed by news), labels in lock-step with the produced
responses, joined by blank lines. -/
theorem c4_compose_labels (p n f m r : Str → Str) {query : Str} {wp wn wf wm : Bool}
    (hnc : containsSub sepAnd (pyLower query) = false)
    (hfl : routedFlags query = (wp, wn, wf, wm)) :
    route_query (pureHandlers p n f m r) query =
      composeSpec (labeledPairs p n f m wp wn wf wm (tickerOf query) query) (r query) := by
  rw [route_pure_nonCompound p n f m r hnc, hfl]

/-- C4 witness: the composition law applied to "AAPL price news", a query
that produces two labelled responses. -/
theorem c4_witness :
    containsSub sepAnd (pyLower (strL "AAPL price news")) = false ∧
    routedFlags (strL "AAPL price news") = (true, true, false, false) ∧
    route_query tagHandlers (strL "AAPL price news") =
      composeSpec (labeledPairs tagP tagN tagF tagM true true false false
        (tickerOf (strL "AAPL price news")) (strL "AAPL price news"))
        (tagR (strL "AAPL price news")) :=
  ⟨by decide, by decide,
    c4_compose_labels tagP tagN tagF tagM tagR (by decide) (by decide)⟩

/-!
Claim C5: failure semantics.
-/

/-- C5 counterexample: on the compound query "price and news" with a raising
price agent, `route_query` does NOT return just the generic failure string:
the failing segment degrades to the generic message while the other
segment's news output is still included. -/
theorem c5_claim_counterexample :
    route_query failPriceHandlers (strL "price and news") ≠ genericFailure ∧
    route_query failPriceHandlers (strL "price and news") =
      genericFailure ++ nl2 ++ tagN (strL "news") := by
  refine ⟨by decide, by decide⟩

/-- C5 (amended): on every NON-COMPOUND query, if the handler phase raises
(any invoked handler or the knowledge-base fallback), `route_query` returns
exactly the generic failure string with no partial handler output.  On a
compound query each segment degrades independently instead.  (The `except`
branch also logs the error; logging is outside this model, and the returned
string never contains the underlying error.) -/
theorem c5_nonCompound_failure_generic (H : Handlers) {query : Str}
    (hnc : containsSub sepAnd (pyLower query) = false)
    (herr : gatherResponses H (routedFlags query).1 (routedFlags query).2.1
      (routedFlags query).2.2.1 (routedFlags query).2.2.2 (tickerOf query) query =
      Except.error ()) :
    route_query H query = genericFailure := by
  rw [route_query_nonCompound H hnc, dispatch, herr]

/-- C5 witness: the amended failure law applied to "FOO price" with the
raising price agent. -/
theorem c5_witness :
    containsSub sepAnd (pyLower (strL "FOO price")) = false ∧
    gatherResponses failPriceHandlers (routedFlags (strL "FOO price")).1
      (routedFlags (strL "FOO price")).2.1 (routedFlags (strL "FOO price")).2.2.1
      (routedFlags (strL "FOO price")).2.2.2 (tickerOf (strL "FOO price"))
      (strL "FOO price") = Except.error () ∧
    route_query failPriceHandlers (strL "FOO price") = genericFailure :=
  ⟨by decide, by rfl,
    c5_nonCompound_failure_generic failPriceHandlers (by decide) (by rfl)⟩

/-!
Claim C6: knowledge-base fallback.
-/

/-- C6 counterexample: "bread and butter" sets no intent flag and yields no
ticker, yet the knowledge-base fallback is not invoked with the raw query:
the compound split fires first and the fallback answers each segment
separately. -/
theorem c6_claim_counterexample :
    noTriggers (pyLower (strL "bread and butter")) = true ∧
    tickerOf (strL "bread and butter") = none ∧
    route_query tagHandlers (strL "bread and butter") ≠
      tagR (strL "bread and butter") ∧
    route_query tagHandlers (strL "bread and butter") =
      tagR (strL "bread") ++ nl2 ++ tagR (strL "butter") := by
  refine ⟨by decide, by decide, by decide, by decide⟩

/-- C6 (amended): every NON-COMPOUND query that sets none of the four intent
flags and yields no extracted ticker routes exclusively to the
knowledge-base fallback, which receives the raw query and whose answer is
returned unmodified. -/
theorem c6_fallback_rag (p n f m r : Str → Str) {query : Str}
    (hnc : containsSub sepAnd (pyLower query) = false)
    (hno : noTriggers (pyLower query) = true)
    (htk : tickerOf query = none) :
    route_query (pureHandlers p n f m r) query = r query := by
  have hfl := routedFlags_noTriggers hno
  rw [htk] at hfl
  rw [route_pure_nonCompound p n f m r hnc, hfl, htk]
  simp [labeledPairs, composeSpec]

/-- C6 witness: the amended fallback law applied to "hello world". -/
theorem c6_witness :
    containsSub sepAnd (pyLower (strL "hello world")) = false ∧
    noTriggers (pyLower (strL "hello world")) = true ∧
    tickerOf (strL "hello world") = none ∧
    route_query tagHandlers (strL "hello world") = tagR (strL "hello world") :=
  ⟨by decide, by decide, by decide,
    c6_fallback_rag tagP tagN tagF tagM tagR (by decide) (by decide) (by decide)⟩

/-!
Claims C7 and C9: the answer cache.
-/

theorem cache_key_inj_owner {o1 o2 q : Str} (h : _cache_key o1 q = _cache_key o2 q) :
    o1 = o2 := by
  unfold _cache_key at h
  have h1 := List.append_cancel_right h
  have h2 := List.append_cancel_right h1
  exact List.append_cancel_left h2

theorem cache_key_inj_norm {o q1 q2 : Str} (h : _cache_key o q1 = _cache_key o q2) :
    pyLower (pyStrip q1) = pyLower (pyStrip q2) := by
  unfold _cache_key at h
  exact List.append_cancel_left h

/-- C7: cache round trip and key normalization.  Writing an answer for
`(owner, q)` on a working store and reading it back with the same owner and
query yields that answer; reading with a different owner after writing on
an empty store yields nothing; two query texts that agree after trimming
and lowercasing share one cache key, and differently-normalized queries
never do. -/
theorem c7_cache_roundtrip_and_scoping (st : RedisState)
    (owner owner2 q q1 q2 q3 q4 X : Str)
    (hok : st.raises = false) (hne : owner2 ≠ owner)
    (hnormEq : pyLower (pyStrip q1) = pyLower (pyStrip q2))
    (hnormNe : pyLower (pyStrip q3) ≠ pyLower (pyStrip q4)) :
    get_cached_answer (set_cached_answer (some st) owner q X) owner q = some X ∧
    get_cached_answer
      (set_cached_answer (some (RedisState.mk false (fun _ => none))) owner q X)
      owner2 q = none ∧
    _cache_key owner q1 = _cache_key owner q2 ∧
    _cache_key owner q3 ≠ _cache_key owner q4 := by
  refine ⟨?_, ?_, ?_, ?_⟩
  · simp [get_cached_answer, set_cached_answer, hok]
  · simp only [get_cached_answer, set_cached_answer]
    simp only [Bool.false_eq_true, if_false, ite_eq_right_iff]
    intro hk
    exact absurd (cache_key_inj_owner hk) hne
  · unfold _cache_key
    rw [hnormEq]
  · intro hk
    exact hnormNe (cache_key_inj_norm hk)

/-- C7 witness: the round-trip and scoping law at owners "alice"/"bob",
query "  Hi " (normalizing to "hi"), and the differently-normalized pair
("hi", "bye"). -/
theorem c7_witness :
    get_cached_answer
      (set_cached_answer (some (RedisState.mk false (fun _ => none)))
        (strL "alice") (strL "  Hi ") (strL "42"))
      (strL "alice") (strL "  Hi ") = some (strL "42") ∧
    get_cached_answer
      (set_cached_answer (some (RedisState.mk false (fun _ => none)))
        (strL "alice") (strL "  Hi ") (strL "42"))
      (strL "bob") (strL "  Hi ") = none ∧
    _cache_key (strL "alice") (strL "  Hi ") = _cache_key (strL "alice") (strL "hi") ∧
    _cache_key (strL "alice") (strL "hi") ≠ _cache_key (strL "alice") (strL "bye") :=
  c7_cache_roundtrip_and_scoping (RedisState.mk false (fun _ => none))
    (strL "alice") (strL "bob") (strL "  Hi ") (strL "  Hi ") (strL "hi") (strL "hi")
    (strL "bye") (strL "42") rfl (by decide) (by decide) (by decide)

/-- C9: cache degradation.  With no client (`redis_client = None`) every
read is a miss and every write a no-op; with a raising backing store the
`except` branches make reads return `None` and writes leave the store
unchanged.  Both operations are total: no error reaches the caller. -/
theorem c9_cache_degrades (st : RedisState) (user q a : Str) (hra : st.raises = true) :
    get_cached_answer none user q = none ∧
    set_cached_answer none user q a = none ∧
    get_cached_answer (some st) user q = none ∧
    set_cached_answer (some st) user q a = some st := by
  refine ⟨rfl, rfl, ?_, ?_⟩ <;> simp [get_cached_answer, set_cached_answer, hra]

/-- C9 witness: the degradation law at a concrete raising store. -/
theorem c9_witness :
    (RedisState.mk true (fun _ => none)).raises = true ∧
    (get_cached_answer none (strL "alice") (strL "hi") = none ∧
     set_cached_answer none (strL "alice") (strL "hi") (strL "42") = none ∧
     get_cached_answer (some (RedisState.mk true (fun _ => none))) (strL "alice")
       (strL "hi") = none ∧
     set_cached_answer (some (RedisState.mk true (fun _ => none))) (strL "alice")
       (strL "hi") (strL "42") = some (RedisState.mk true (fun _ => none))) :=
  ⟨rfl, c9_cache_degrades (RedisState.mk true (fun _ => none)) (strL "alice")
    (strL "hi") (strL "42") rfl⟩

/-!
Claim C8: registration and login verification.
-/

/-- C8: `register_user` reports success exactly when the username is new
(`False`, not an exception, on a duplicate — in particular a second
registration of the same username fails), and `verify_login` returns `true`
exactly when a record is stored for the username and its stored hash equals
the hash of the supplied password.  Both functions are total: neither
raises for these conditions. -/
theorem c8_register_verify (hashF : Str → Str) (db : Str → Option (Str × Str × Str))
    (u e n pw e2 n2 pw2 psupplied : Str) :
    ((register_user hashF db u e n pw).2 = (db u).isNone) ∧
    ((register_user hashF ((register_user hashF db u e n pw).1) u e2 n2 pw2).2 = false) ∧
    (verify_login hashF db u psupplied = true ↔
      ∃ row, db u = some row ∧ row.2.2 = hashF psupplied) := by
  refine ⟨?_, ?_, ?_⟩
  · cases hdb : db u <;> simp [register_user, hdb]
  · cases hdb : db u
    · simp [register_user, hdb]
    · simp [register_user, hdb]
  · cases hdb : db u with
    | none => simp [verify_login, hdb]
    | some row => simp [verify_login, hdb]

/-- C8 witness: the registration/verification law at a one-user store with
a concrete (injective) stand-in hash. -/
theorem c8_witness :
    ((register_user (fun s => 'H' :: s)
        (fun usr => if usr = strL "alice" then some (strL "e", strL "nm", 'H' :: strL "pw")
          else none)
        (strL "alice") (strL "e2") (strL "n2") (strL "pw")).2 =
      ((fun usr => if usr = strL "alice" then some (strL "e", strL "nm", 'H' :: strL "pw")
          else none) (strL "alice")).isNone) ∧
    ((register_user (fun s => 'H' :: s)
        ((register_user (fun s => 'H' :: s)
          (fun usr => if usr = strL "alice" then some (strL "e", strL "nm", 'H' :: strL "pw")
            else none)
          (strL "alice") (strL "e2") (strL "n2") (strL "pw")).1)
        (strL "alice") (strL "e3") (strL "n3") (strL "pw3")).2 = false) ∧
    (verify_login (fun s => 'H' :: s)
        (fun usr => if usr = strL "alice" then some (strL "e", strL "nm", 'H' :: strL "pw")
          else none)
        (strL "alice") (strL "pw") = true ↔
      ∃ row, (fun usr => if usr = strL "alice" then some (strL "e", strL "nm", 'H' :: strL "pw")
          else none) (strL "alice") = some row ∧ row.2.2 = (fun s => 'H' :: s) (strL "pw")) :=
  c8_register_verify (fun s => 'H' :: s)
    (fun usr => if usr = strL "alice" then some (strL "e", strL "nm", 'H' :: strL "pw")
      else none)
    (strL "alice") (strL "e2") (strL "n2") (strL "pw") (strL "e3") (strL "n3") (strL "pw3")
    (strL "pw")

/-!
Claim C10: `fetch_chat`.
-/

theorem insertById_mem {r a : ChatRow} {l : List ChatRow} :
    a ∈ insertById r l ↔ a = r ∨ a ∈ l := by
  induction l with
  | nil => simp [insertById]
  | cons x xs ih =>
    rw [insertById]
    split
    · simp
    · simp [ih]
      tauto

theorem insertById_pairwise {r : ChatRow} {l : List ChatRow}
    (h : List.Pairwise (fun a b => a.id ≤ b.id) l) :
    List.Pairwise (fun a b => a.id ≤ b.id) (insertById r l) := by
  induction l with
  | nil => simp [insertById]
  | cons x xs ih =>
    rw [insertById]
    rw [List.pairwise_cons] at h
    split
    · rename_i hle
      refine List.Pairwise.cons ?_ (List.Pairwise.cons h.1 h.2)
      intro b hb
      rcases List.mem_cons.mp hb with rfl | hb'
      · exact hle
      · exact le_trans hle (h.1 b hb')
    · rename_i hgt
      refine List.Pairwise.cons ?_ (ih h.2)
      intro b hb
      rcases insertById_mem.mp hb with rfl | hb'
      · omega
      · exact h.1 b hb'

theorem sortById_pairwise (l : List ChatRow) :
    List.Pairwise (fun a b => a.id ≤ b.id) (sortById l) := by
  induction l with
  | nil => exact List.Pairwise.nil
  | cons x xs ih => exact insertById_pairwise ih

/-- C10: `fetch_chat` returns at most `limit` records, all belonging to the
requested username, in ascending id (= insertion) order; the rows read are
a prefix of the user's full ascending history, i.e. the earliest-inserted
ones, not the most recent; and the default limit is 200. -/
theorem c10_fetch_chat (db : List ChatRow) (u : Str) (limit : Nat) :
    (fetch_chat db u limit).length ≤ limit ∧
    (fetchRows db u limit).all (fun row => row.username == u) = true ∧
    List.Pairwise (fun a b => a.id ≤ b.id) (fetchRows db u limit) ∧
    fetchRows db u limit ++ ((sortById db).filter (fun r => r.username == u)).drop limit =
      (sortById db).filter (fun r => r.username == u) ∧
    fetch_chat db u = fetch_chat db u 200 := by
  refine ⟨?_, ?_, ?_, ?_, rfl⟩
  · simp only [fetch_chat, List.length_map, fetchRows]
    exact List.length_take_le limit _
  · rw [List.all_eq_true]
    intro row hrow
    simp only [fetchRows] at hrow
    have hmem : row ∈ (sortById db).filter (fun r => r.username == u) :=
      List.take_subset limit _ hrow
    have hprop := List.of_mem_filter hmem
    simpa using hprop
  · exact ((sortById_pairwise db).filter _).sublist (List.take_sublist limit _)
  · exact List.take_append_drop limit _
